import Mathlib

/-!
Verification development for the taskpy async scraper
(src/async_scraper.py and src/async_imdb.py).

The Python sources are embedded shallowly:
* `RateLimiter` (async_scraper.py lines 44-68, identical copy in
  async_imdb.py lines 21-45) becomes an explicit-state function.  Because the
  Python code holds `self._lock` for the whole body of `wait` (including the
  `asyncio.sleep`), concurrent `wait` calls are fully serialized; a run is
  therefore modelled as a list of calls folded over the limiter state.  Each
  call carries the clock value read after acquiring the lock and a wake-up
  jitter `j >= 0` (asyncio.sleep suspends for at least the requested
  duration, so the re-read clock is `next_ready + j`).
* `fetch` (async_scraper.py lines 71-89) becomes a recursion over the number
  of remaining attempts, with the per-attempt outcome supplied by an oracle
  `Nat -> Except String String` (exception message or response body; the
  `resp.raise_for_status()` non-2xx case and transport errors are both
  Python exceptions, hence `.error`).
* `RobotsCache` (async_scraper.py lines 119-147) becomes an explicit-state
  function over a cache `String -> Option RobotFileParser`, with the robots
  document fetch supplied by an oracle keyed by host.  The stdlib
  `urllib.robotparser.RobotFileParser` (external to the repository) is
  modelled from its CPython semantics: `parse` marks the file as checked and
  runs the user-agent/allow/disallow line state machine; `can_fetch` with no
  matching entry returns `True`.  URL percent-quoting is omitted.
* `_scrape_one` / `scrape_many` (async_scraper.py lines 150-184) become pure
  functions over an environment of per-URL outcomes; `asyncio.gather`
  returns results positionally in task-submission order regardless of
  completion order (documented asyncio semantics), which is embedded as
  `List.map` over the input URL list.
* `asyncio.Semaphore(concurrency)` together with the `async with semaphore:`
  block that wraps the whole retry loop of `fetch` becomes a small
  transition system (`GateStep`): a task acquires one slot, performs all of
  its retry attempts inside that slot, and releases on exit.
-/

/-- Characters after the first `://` of a URL, or `none` when the URL has
no scheme separator. -/
def dropScheme : List Char → Option (List Char)
  | [] => none
  | ':' :: '/' :: '/' :: rest => some rest
  | _ :: rest => dropScheme rest

/-- Model of `urlparse(url).netloc` for absolute URLs: the text between
`://` and the next `/`.  URLs without a scheme separator get netloc `""`. -/
def netloc (url : String) : String :=
  match dropScheme url.data with
  | some rest => String.mk (rest.takeWhile (fun c => c ≠ '/'))
  | none => ""

/-- Model of `urlparse(url).path` (query/params/fragment kept with the
path): everything from the first `/` after the host. -/
def pathOf (url : String) : String :=
  match dropScheme url.data with
  | some rest => String.mk (rest.dropWhile (fun c => c ≠ '/'))
  | none => url

/-- Model of Python `str.splitlines` restricted to `\n` separators and
without a trailing empty line; the empty string yields no lines, as in
Python. -/
def splitlines (s : String) : List String :=
  if s.isEmpty then [] else s.splitOn "\n"

/-- Events emitted by one `RateLimiter.wait` call, used to talk about what
happens inside versus outside the exclusive section. -/
inductive RLEvent where
  | acquire : RLEvent
  | release : RLEvent
  | readClock : ℚ → RLEvent
  | sleep : ℚ → RLEvent
  | setNext : String → ℚ → RLEvent
deriving DecidableEq

/-- State of `RateLimiter` (async_scraper.py lines 44-50): configured
`delay` and `per_host` flag, `_next_ready_global`, and `_per_host_next`
modelled as a total function defaulting to `0` (Python
`dict.get(host, 0.0)`). -/
structure RateLimiter where
  delay : ℚ
  perHost : Bool
  nextReadyGlobal : ℚ
  perHostNext : String → ℚ

/-- Constructor `RateLimiter.__init__`: `delay = max(0.0, delay)`, empty
schedule. -/
def RateLimiter.init (delay : ℚ) (perHost : Bool) : RateLimiter :=
  { delay := max 0 delay, perHost := perHost,
    nextReadyGlobal := 0, perHostNext := fun _ => 0 }

/-- Scope key of a call: `urlparse(url).netloc if self.per_host else
"__global__"` (async_scraper.py line 55). -/
def scopeKey (rl : RateLimiter) (url : String) : String :=
  if rl.perHost then netloc url else "__global__"

/-- The next-allowed timestamp the limiter currently stores for a scope. -/
def RateLimiter.next (rl : RateLimiter) (s : String) : ℚ :=
  if rl.perHost then rl.perHostNext s else rl.nextReadyGlobal

/-- Model of `RateLimiter.wait` (async_scraper.py lines 52-68).  `now` is
the clock read after acquiring the lock; `j` is the wake-up jitter of
`asyncio.sleep` (the clock re-read after sleeping returns
`next_ready + j`).  Returns the issue time (the clock value when `wait`
returns, i.e. when the caller proceeds to put its request on the wire),
the new limiter state, and the event trace of the call.  The whole body
runs under `self._lock`, which is why a single sequential state-passing
call models one (serialized) concurrent `wait`. -/
def RateLimiter.wait (rl : RateLimiter) (url : String) (now j : ℚ) :
    ℚ × RateLimiter × List RLEvent :=
  if rl.delay ≤ 0 then (now, rl, [])
  else
    let host := scopeKey rl url
    if rl.perHost then
      let nextReady := rl.perHostNext host
      if now < nextReady then
        let now' := nextReady + j
        (now',
         { rl with perHostNext :=
             fun h => if h = host then now' + rl.delay else rl.perHostNext h },
         [RLEvent.acquire, RLEvent.readClock now, RLEvent.sleep (nextReady - now),
          RLEvent.readClock now', RLEvent.setNext host (now' + rl.delay),
          RLEvent.release])
      else
        (now,
         { rl with perHostNext :=
             fun h => if h = host then now + rl.delay else rl.perHostNext h },
         [RLEvent.acquire, RLEvent.readClock now,
          RLEvent.setNext host (now + rl.delay), RLEvent.release])
    else
      if now < rl.nextReadyGlobal then
        let now' := rl.nextReadyGlobal + j
        (now',
         { rl with nextReadyGlobal := now' + rl.delay },
         [RLEvent.acquire, RLEvent.readClock now,
          RLEvent.sleep (rl.nextReadyGlobal - now), RLEvent.readClock now',
          RLEvent.setNext host (now' + rl.delay), RLEvent.release])
      else
        (now,
         { rl with nextReadyGlobal := now + rl.delay },
         [RLEvent.acquire, RLEvent.readClock now,
          RLEvent.setNext host (now + rl.delay), RLEvent.release])

/-- Run a serialized sequence of `wait` calls (each element: url, clock
reading at lock acquisition, sleep jitter).  Returns, per call, the scope
key and the issue time, plus the final limiter state. -/
def runWait (rl : RateLimiter) : List (String × ℚ × ℚ) →
    List (String × ℚ) × RateLimiter
  | [] => ([], rl)
  | c :: rest =>
    let w := rl.wait c.1 c.2.1 c.2.2
    let t := runWait w.2.1 rest
    ((scopeKey rl c.1, w.1) :: t.1, t.2)

/-- Lock depth observed at each `sleep` event of a trace (the accumulator
is the current depth). -/
def lockDepthsAtSleeps : List RLEvent → ℕ → List ℕ
  | [], _ => []
  | RLEvent.acquire :: rest, d => lockDepthsAtSleeps rest (d + 1)
  | RLEvent.release :: rest, d => lockDepthsAtSleeps rest (d - 1)
  | RLEvent.sleep _ :: rest, d => d :: lockDepthsAtSleeps rest d
  | _ :: rest, d => lockDepthsAtSleeps rest d

/-- Trace of one `fetch` call (async_scraper.py lines 71-89): the returned
value (`.ok (some body)` for a 2xx response, `.error e` for a re-raised
final failure, `.ok none` when the loop body never runs and Python falls
off the end of the function returning `None`), the attempt numbers
executed in order, and the backoff sleeps performed between attempts. -/
structure FetchTrace where
  result : Except String (Option String)
  attempts : List ℕ
  sleeps : List ℚ

/-- Loop of `fetch`: `a` is the current attempt number, `b` the current
backoff, the `Nat` argument the number of attempts still allowed.  The
oracle gives each attempt's outcome (body, or exception text covering
rate-limiter errors, transport errors, timeouts and `raise_for_status`). -/
def fetchAux (oracle : ℕ → Except String String) (a : ℕ) (b : ℚ) :
    ℕ → FetchTrace
  | 0 => { result := Except.ok none, attempts := [], sleeps := [] }
  | n + 1 =>
    match oracle a with
    | Except.ok body =>
        { result := Except.ok (some body), attempts := [a], sleeps := [] }
    | Except.error e =>
        if n = 0 then
          { result := Except.error e, attempts := [a], sleeps := [] }
        else
          let t := fetchAux oracle (a + 1) (2 * b) n
          { result := t.result, attempts := a :: t.attempts,
            sleeps := b :: t.sleeps }

/-- Model of `fetch` (async_scraper.py lines 71-89): `for attempt in
range(1, retries + 1)` starting with `backoff = 1.0`.  `retries` is a
Python `int`, so it may be non-positive, in which case the loop body never
runs. -/
def fetch (oracle : ℕ → Except String String) (retries : ℤ) : FetchTrace :=
  fetchAux oracle 1 1 retries.toNat

/-- One `Allow`/`Disallow` line of a parsed robots file (CPython
`robotparser.RuleLine`, minus percent-quoting of the path). -/
structure RuleLine where
  path : String
  allowance : Bool
deriving DecidableEq

/-- CPython `RuleLine.__init__`: an empty `Disallow:` value means allow
everything. -/
def mkRuleLine (path : String) (allowance : Bool) : RuleLine :=
  if path = "" ∧ allowance = false then { path := "", allowance := true }
  else { path := path, allowance := allowance }

/-- One user-agent group of a robots file (CPython `robotparser.Entry`). -/
structure RobotsEntry where
  useragents : List String
  rulelines : List RuleLine
deriving DecidableEq

/-- Boolean substring test modelling Python `needle in haystack`. -/
def containsSub (haystack needle : String) : Bool :=
  needle.isEmpty || (haystack.splitOn needle).length ≥ 2

/-- CPython `Entry.applies_to`: compare the agent token before any `/`,
case-insensitively; `*` matches everything. -/
def RobotsEntry.appliesTo (e : RobotsEntry) (useragent : String) : Bool :=
  let ua := (((useragent.splitOn "/").headD "").toLower)
  e.useragents.any (fun agent => agent == "*" || containsSub ua agent.toLower)

/-- CPython `Entry.allowance`: first matching rule line decides; no match
means allowed. -/
def RobotsEntry.allowance (e : RobotsEntry) (filename : String) : Bool :=
  match e.rulelines.find? (fun line => line.path == "*" || filename.startsWith line.path) with
  | some line => line.allowance
  | none => true

/-- Parsed robots rules (CPython `robotparser.RobotFileParser` state that
`can_fetch` consults).  `lastChecked` abstracts `last_checked != 0`. -/
structure RobotFileParser where
  entries : List RobotsEntry
  defaultEntry : Option RobotsEntry
  disallowAll : Bool
  allowAll : Bool
  lastChecked : Bool
deriving DecidableEq

/-- CPython `RobotFileParser._add_entry`. -/
def addEntry (st : RobotFileParser) (e : RobotsEntry) : RobotFileParser :=
  if e.useragents.contains "*" then
    if st.defaultEntry = none then { st with defaultEntry := some e } else st
  else { st with entries := st.entries ++ [e] }

/-- CPython `RobotFileParser.can_fetch` (percent-quoting omitted; the
filename is the URL's path, `/` when empty). -/
def RobotFileParser.canFetch (rp : RobotFileParser) (useragent url : String) :
    Bool :=
  if rp.disallowAll then false
  else if rp.allowAll then true
  else if !rp.lastChecked then false
  else
    let p := pathOf url
    let fname := if p = "" then "/" else p
    match rp.entries.find? (fun e => e.appliesTo useragent) with
    | some e => e.allowance fname
    | none =>
      match rp.defaultEntry with
      | some e => e.allowance fname
      | none => true

/-- Text before the first `#` of a line. -/
def stripComment (s : String) : String :=
  (s.splitOn "#").headD ""

/-- Split a line at its first `:`, like Python `line.split(':', 1)`. -/
def splitColon1 (s : String) : Option (String × String) :=
  match s.splitOn ":" with
  | [] => none
  | [_] => none
  | k :: rest => some (k, String.intercalate ":" rest)

/-- One step of the CPython `RobotFileParser.parse` state machine.  The
accumulator is (rules so far, entry under construction, parser state
0/1/2). -/
def parseStep (acc : RobotFileParser × RobotsEntry × ℕ) (rawline : String) :
    RobotFileParser × RobotsEntry × ℕ :=
  let st := acc.1
  let entry := acc.2.1
  let state := acc.2.2
  let blankHandled :=
    if rawline.isEmpty then
      if state = 1 then (st, ({ useragents := [], rulelines := [] } : RobotsEntry), 0)
      else if state = 2 then
        (addEntry st entry, ({ useragents := [], rulelines := [] } : RobotsEntry), 0)
      else (st, entry, state)
    else (st, entry, state)
  let st := blankHandled.1
  let entry := blankHandled.2.1
  let state := blankHandled.2.2
  let line := (stripComment rawline).trim
  if line.isEmpty then (st, entry, state)
  else
    match splitColon1 line with
    | none => (st, entry, state)
    | some kv =>
      let key := kv.1.trim.toLower
      let val := kv.2.trim
      if key = "user-agent" then
        let stEntry :=
          if state = 2 then
            (addEntry st entry, ({ useragents := [], rulelines := [] } : RobotsEntry))
          else (st, entry)
        (stEntry.1,
         { stEntry.2 with useragents := stEntry.2.useragents ++ [val] }, 1)
      else if key = "disallow" then
        if state ≠ 0 then
          (st, { entry with rulelines := entry.rulelines ++ [mkRuleLine val false] }, 2)
        else (st, entry, state)
      else if key = "allow" then
        if state ≠ 0 then
          (st, { entry with rulelines := entry.rulelines ++ [mkRuleLine val true] }, 2)
        else (st, entry, state)
      else (st, entry, state)

/-- Model of `rp = robotparser.RobotFileParser(); rp.parse(lines)`
(async_scraper.py lines 140-145): `parse` calls `modified()` (so the file
counts as checked) and runs the line state machine, flushing a trailing
entry in state 2. -/
def RobotFileParser.parseNew (lines : List String) : RobotFileParser :=
  let init : RobotFileParser × RobotsEntry × ℕ :=
    ({ entries := [], defaultEntry := none, disallowAll := false,
       allowAll := false, lastChecked := true },
     { useragents := [], rulelines := [] }, 0)
  let fin := lines.foldl parseStep init
  if fin.2.2 = 2 then addEntry fin.1 fin.2.1 else fin.1

/-- Body text obtained from one robots.txt fetch outcome: the body only on
a 200 status, `""` on any other status or on an exception
(async_scraper.py lines 132-139). -/
def robotsText (r : Except String (ℕ × String)) : String :=
  match r with
  | Except.ok sb => if sb.1 = 200 then sb.2 else ""
  | Except.error _ => ""

/-- Rules cached for a host after a robots fetch: parse the received text's
lines (an empty text parses the empty line list, which CPython's
robotparser treats as no rules / allow). -/
def fetchedRules (oracle : String → Except String (ℕ × String))
    (host : String) : RobotFileParser :=
  RobotFileParser.parseNew (splitlines (robotsText (oracle host)))

/-- `oracle host` fails: the GET of `https://host/robots.txt` raised, or
returned a non-200 status. -/
def robotsFetchFailed (oracle : String → Except String (ℕ × String))
    (host : String) : Bool :=
  match oracle host with
  | Except.error _ => true
  | Except.ok sb => decide (sb.1 ≠ 200)

/-- State of `RobotsCache` (async_scraper.py lines 119-124): the
configured user agent and the per-host cache (`None` = not yet resolved). -/
structure RobotsCache where
  userAgent : String
  cache : String → Option RobotFileParser

/-- Model of `RobotsCache.can_fetch` (async_scraper.py lines 126-147).
The whole body runs under `self._lock`, so concurrent calls are fully
serialized and one explicit-state step models one call.  `oracle` gives
the outcome of the robots.txt GET for a host (status and body, or
exception text).  Returns the decision, the new cache state, and whether
this call performed the robots fetch. -/
def RobotsCache.canFetchStep (oracle : String → Except String (ℕ × String))
    (rc : RobotsCache) (url : String) : Bool × RobotsCache × Bool :=
  let host := netloc url
  match rc.cache host with
  | some rp => (rp.canFetch rc.userAgent url, rc, false)
  | none =>
    let rp := fetchedRules oracle host
    (rp.canFetch rc.userAgent url,
     { rc with cache := fun h => if h = host then some rp else rc.cache h },
     true)

/-- Run a serialized sequence of `can_fetch` calls.  Returns, per call,
(url, decision, whether this call fetched robots.txt), plus the final
cache state. -/
def runRobots (oracle : String → Except String (ℕ × String)) :
    RobotsCache → List String → List (String × Bool × Bool) × RobotsCache
  | rc, [] => ([], rc)
  | rc, url :: rest =>
    let s := rc.canFetchStep oracle url
    let t := runRobots oracle s.2.1 rest
    ((url, s.1, s.2.2) :: t.1, t.2)

/-- Number of calls in a `runRobots` output that fetched robots.txt for
host `h`. -/
def fetchesFor (h : String) (outs : List (String × Bool × Bool)) : ℕ :=
  (outs.filter (fun o => netloc o.1 == h && o.2.2)).length

/-- Result dict built by `_scrape_one` (async_scraper.py lines 179, 182,
184): url, ok flag, and either extracted data or an error string. -/
structure ScrapeResult where
  url : String
  ok : Bool
  data : Option (List (String × List String))
  error : Option String
deriving DecidableEq

/-- Per-URL outcomes of the effectful collaborators of `_scrape_one`:
the robots decision for a URL, the outcome of `fetch` (body, or the
exception it raises), and the outcome of `parse_html` on a body (data, or
the exception it raises). -/
structure ScrapeEnv where
  robotsAllowed : String → Bool
  fetchResult : String → Except String String
  parseResult : String → Except String (List (String × List String))

/-- Model of `_scrape_one` (async_scraper.py lines 168-184).  The second
component records whether `fetch` was invoked: the semaphore acquisition
and every network request for the URL happen inside `fetch`, so `false`
means no gate slot was taken and no request was issued.  The `try/except`
around the body converts any failure into a not-ok result. -/
def scrapeOne (env : ScrapeEnv) (respectRobots : Bool) (url : String) :
    ScrapeResult × Bool :=
  if respectRobots && !env.robotsAllowed url then
    ({ url := url, ok := false, data := none,
       error := some "Disallowed by robots.txt" }, false)
  else
    match env.fetchResult url with
    | Except.error e =>
        ({ url := url, ok := false, data := none, error := some e }, true)
    | Except.ok body =>
      match env.parseResult body with
      | Except.error e =>
          ({ url := url, ok := false, data := none, error := some e }, true)
      | Except.ok data =>
          ({ url := url, ok := true, data := some data, error := none }, true)

/-- Model of `scrape_many` (async_scraper.py lines 150-165): one task per
input URL, results collected by `asyncio.gather` positionally in
task-submission order. -/
def scrape_many (env : ScrapeEnv) (respectRobots : Bool)
    (urls : List String) : List ScrapeResult :=
  urls.map (fun u => (scrapeOne env respectRobots u).1)

/-- A URL's processing fails: robots disallow (with robots enabled), the
fetch raises, or the extraction step raises on the fetched body. -/
def failsFor (env : ScrapeEnv) (respectRobots : Bool) (u : String) : Prop :=
  (respectRobots = true ∧ env.robotsAllowed u = false)
  ∨ (∃ e, env.fetchResult u = Except.error e)
  ∨ (∃ b e, env.fetchResult u = Except.ok b ∧ env.parseResult b = Except.error e)

/-- Two environments agree on everything `_scrape_one` consults for `u`. -/
def agreesAt (env env' : ScrapeEnv) (u : String) : Prop :=
  env.robotsAllowed u = env'.robotsAllowed u
  ∧ env.fetchResult u = env'.fetchResult u
  ∧ ∀ b, env.fetchResult u = Except.ok b → env.parseResult b = env'.parseResult b

/-- Phase of one `_scrape_one` task with respect to the concurrency gate:
not yet at the gate, inside its slot with `n` retry attempts still to run,
or finished (slot released). -/
inductive TaskPhase where
  | idle : TaskPhase
  | active : ℕ → TaskPhase
  | done : TaskPhase
deriving DecidableEq

/-- Shared state: the semaphore's free-slot count and each task's phase. -/
structure GateState where
  sem : ℕ
  tasks : List TaskPhase
deriving DecidableEq

/-- Number of tasks currently inside a gate slot. -/
def countActive (ts : List TaskPhase) : ℕ :=
  ts.countP (fun t => match t with | TaskPhase.active _ => true | _ => false)

/-- Transition system for `asyncio.Semaphore(concurrency)` as used by
`fetch` (async_scraper.py lines 77-88): `async with semaphore:` acquires
one slot before the retry loop (blocking while the count is zero), every
retry attempt and backoff sleep runs inside that same slot without
touching the semaphore, and the slot is released once on exit. -/
inductive GateStep : GateState → GateState → Prop where
  | acquire (s : GateState) (i r : ℕ) (hi : i < s.tasks.length)
      (hidle : s.tasks.get ⟨i, hi⟩ = TaskPhase.idle) (hsem : 0 < s.sem) :
      GateStep s { sem := s.sem - 1, tasks := s.tasks.set i (TaskPhase.active r) }
  | attempt (s : GateState) (i r : ℕ) (hi : i < s.tasks.length)
      (h : s.tasks.get ⟨i, hi⟩ = TaskPhase.active (r + 1)) :
      GateStep s { sem := s.sem, tasks := s.tasks.set i (TaskPhase.active r) }
  | release (s : GateState) (i : ℕ) (hi : i < s.tasks.length)
      (h : s.tasks.get ⟨i, hi⟩ = TaskPhase.active 0) :
      GateStep s { sem := s.sem + 1, tasks := s.tasks.set i TaskPhase.done }

/-- States reachable from `scrape_many`'s start: `Semaphore(k)` fresh and
`n` per-URL tasks none of which has reached the gate. -/
inductive GateReachable (k n : ℕ) : GateState → Prop where
  | init : GateReachable k n { sem := k, tasks := List.replicate n TaskPhase.idle }
  | step {s s' : GateState} : GateReachable k n s → GateStep s s' →
      GateReachable k n s'

theorem fetchAux_ok (oracle : ℕ → Except String String) (a : ℕ) (b : ℚ)
    (n : ℕ) (body : String) (h : oracle a = Except.ok body) :
    fetchAux oracle a b (n + 1) =
      { result := Except.ok (some body), attempts := [a], sleeps := [] } := by
  simp [fetchAux, h]

theorem fetchAux_err_last (oracle : ℕ → Except String String) (a : ℕ) (b : ℚ)
    (e : String) (h : oracle a = Except.error e) :
    fetchAux oracle a b 1 =
      { result := Except.error e, attempts := [a], sleeps := [] } := by
  simp [fetchAux, h]

theorem fetchAux_err_cons (oracle : ℕ → Except String String) (a : ℕ) (b : ℚ)
    (n : ℕ) (e : String) (h : oracle a = Except.error e) :
    fetchAux oracle a b (n + 2) =
      { result := (fetchAux oracle (a + 1) (2 * b) (n + 1)).result,
        attempts := a :: (fetchAux oracle (a + 1) (2 * b) (n + 1)).attempts,
        sleeps := b :: (fetchAux oracle (a + 1) (2 * b) (n + 1)).sleeps } := by
  simp [fetchAux, h]

theorem sleeps_geom (n : ℕ) (b : ℚ) :
    (List.range (n + 1)).map (fun i => (2 : ℚ) ^ i * b)
      = b :: (List.range n).map (fun i => (2 : ℚ) ^ i * (2 * b)) := by
  rw [List.range_succ_eq_map, List.map_cons, List.map_map]
  congr 1
  · norm_num
  · congr 1
    funext i
    simp only [Function.comp_apply, pow_succ]
    ring

theorem fetchAux_allFail (oracle : ℕ → Except String String) :
    ∀ (n a : ℕ) (b : ℚ),
      (∀ k, a ≤ k → k ≤ a + n → ∃ e, oracle k = Except.error e) →
      fetchAux oracle a b (n + 1) =
        { result := Except.map some (oracle (a + n)),
          attempts := List.range' a (n + 1),
          sleeps := (List.range n).map (fun i => (2 : ℚ) ^ i * b) } := by
  intro n
  induction n with
  | zero =>
    intro a b h
    obtain ⟨e, he⟩ := h a le_rfl (by omega)
    rw [fetchAux_err_last oracle a b e he]
    simp [he, Except.map, List.range']
  | succ n ih =>
    intro a b h
    obtain ⟨e, he⟩ := h a le_rfl (by omega)
    rw [show n + 1 + 1 = n + 2 from rfl, fetchAux_err_cons oracle a b n e he,
        ih (a + 1) (2 * b) (fun k hk1 hk2 => h k (by omega) (by omega))]
    have hix : a + 1 + n = a + (n + 1) := by omega
    simp only [FetchTrace.mk.injEq]
    refine ⟨by rw [hix], rfl, (sleeps_geom n b).symm⟩

theorem fetchAux_firstOk (oracle : ℕ → Except String String) :
    ∀ (jj a : ℕ) (b : ℚ) (m : ℕ) (body : String),
      (∀ i, i < jj → ∃ e, oracle (a + i) = Except.error e) →
      oracle (a + jj) = Except.ok body →
      fetchAux oracle a b (jj + 1 + m) =
        { result := Except.ok (some body),
          attempts := List.range' a (jj + 1),
          sleeps := (List.range jj).map (fun i => (2 : ℚ) ^ i * b) } := by
  intro jj
  induction jj with
  | zero =>
    intro a b m body _ hok
    rw [Nat.add_zero] at hok
    rw [show 0 + 1 + m = m + 1 from by omega, fetchAux_ok oracle a b m body hok]
    simp [List.range']
  | succ jj ih =>
    intro a b m body hfail hok
    obtain ⟨e, he⟩ := hfail 0 (by omega)
    rw [Nat.add_zero] at he
    rw [show jj + 1 + 1 + m = (jj + m) + 2 from by omega,
        fetchAux_err_cons oracle a b (jj + m) e he]
    have hrec := ih (a + 1) (2 * b) m body
      (fun i hi => by
        obtain ⟨e2, he2⟩ := hfail (i + 1) (by omega)
        exact ⟨e2, by rw [show a + 1 + i = a + (i + 1) from by omega]; exact he2⟩)
      (by rw [show a + 1 + jj = a + (jj + 1) from by omega]; exact hok)
    rw [show jj + m + 1 = jj + 1 + m from by omega, hrec]
    simp only [FetchTrace.mk.injEq, true_and]
    exact ⟨rfl, (sleeps_geom jj b).symm⟩

/-- C4: with `retries = r >= 1`, if every attempt fails then exactly the
attempts `1..r` run, the backoff sleeps between consecutive attempts `k`
and `k+1` last `2^(k-1)` seconds (base 1: 1s, 2s, 4s, ...), and the
failure of attempt `r` is re-raised as the terminal outcome; and a
successful attempt `k` (all earlier attempts failing) returns its body
immediately, the attempts made being exactly `1..k`. -/
theorem c4_retry_schedule (oracle : ℕ → Except String String) (r : ℤ)
    (hr : 1 ≤ r) :
    ((∀ k, 1 ≤ k → k ≤ r.toNat → ∃ e, oracle k = Except.error e) →
      (fetch oracle r).attempts = List.range' 1 r.toNat ∧
      (fetch oracle r).sleeps =
        (List.range (r.toNat - 1)).map (fun i => (2 : ℚ) ^ i) ∧
      (fetch oracle r).result = Except.map some (oracle r.toNat))
    ∧ (∀ k body, 1 ≤ k → k ≤ r.toNat → oracle k = Except.ok body →
        (∀ m, 1 ≤ m → m < k → ∃ e, oracle m = Except.error e) →
        (fetch oracle r).result = Except.ok (some body) ∧
        (fetch oracle r).attempts = List.range' 1 k) := by
  obtain ⟨n, hn⟩ : ∃ n, r.toNat = n + 1 := ⟨r.toNat - 1, by omega⟩
  constructor
  · intro hfail
    have hall := fetchAux_allFail oracle n 1 1
      (fun k hk1 hk2 => hfail k hk1 (by omega))
    have hfetch : fetch oracle r = fetchAux oracle 1 1 (n + 1) := by
      rw [fetch, hn]
    rw [hfetch, hall]
    refine ⟨by rw [hn], ?_, by rw [show 1 + n = r.toNat from by omega]⟩
    rw [show r.toNat - 1 = n from by omega]
    simp
  · intro k body hk1 hk2 hok hbefore
    obtain ⟨jj, hjj⟩ : ∃ jj, k = jj + 1 := ⟨k - 1, by omega⟩
    obtain ⟨m, hm⟩ : ∃ m, r.toNat = jj + 1 + m := ⟨r.toNat - k, by omega⟩
    have hres := fetchAux_firstOk oracle jj 1 1 m body
      (fun i hi => hbefore (1 + i) (by omega) (by omega))
      (by rw [show 1 + jj = k from by omega]; exact hok)
    have hfetch : fetch oracle r = fetchAux oracle 1 1 (jj + 1 + m) := by
      rw [fetch, hm]
    rw [hfetch, hres]
    exact ⟨rfl, by rw [hjj]⟩

theorem c4_retry_schedule_witness :
    (fetch (fun _ => Except.error "boom") 3).attempts = List.range' 1 3 ∧
    (fetch (fun _ => Except.error "boom") 3).sleeps =
      (List.range 2).map (fun i => (2 : ℚ) ^ i) ∧
    (fetch (fun _ => Except.error "boom") 3).result =
      Except.map some (Except.error "boom") :=
  (c4_retry_schedule (fun _ => Except.error "boom") 3 (by norm_num)).1
    (fun k _ _ => ⟨"boom", rfl⟩)

/-- C10: a `fetch` with `retries <= 0` never runs the loop body: Python's
`range(1, retries + 1)` is empty, the function falls off the end and
returns `None` (despite the declared `-> str`), makes no attempt, and
performs no backoff sleep. -/
theorem c10_nonpositive_retries (oracle : ℕ → Except String String)
    (r : ℤ) (hr : r ≤ 0) :
    (fetch oracle r).result = Except.ok none ∧
    (fetch oracle r).attempts = [] ∧
    (fetch oracle r).sleeps = [] := by
  have h0 : r.toNat = 0 := Int.toNat_of_nonpos hr
  rw [fetch, h0]
  exact ⟨rfl, rfl, rfl⟩

theorem c10_nonpositive_retries_witness :
    (fetch (fun _ => Except.error "x") 0).result = Except.ok none ∧
    (fetch (fun _ => Except.error "x") 0).attempts = [] ∧
    (fetch (fun _ => Except.error "x") 0).sleeps = [] :=
  c10_nonpositive_retries (fun _ => Except.error "x") 0 (by norm_num)

theorem scrapeOne_url (env : ScrapeEnv) (re : Bool) (u : String) :
    ((scrapeOne env re u).1).url = u := by
  unfold scrapeOne
  split
  · rfl
  · split
    · rfl
    · split <;> rfl

/-- C2: `scrape_many` returns exactly one result per input URL, and the
`i`-th result is the result for the `i`-th input URL (input order is
preserved; `asyncio.gather` collects positionally in task-submission
order, independently of completion order). -/
theorem c2_order_preserved (env : ScrapeEnv) (re : Bool)
    (urls : List String) :
    (scrape_many env re urls).length = urls.length ∧
    ∀ i : ℕ, ((scrape_many env re urls).get? i).map ScrapeResult.url
      = urls.get? i := by
  constructor
  · simp [scrape_many]
  · intro i
    rw [scrape_many, List.get?_map, Option.map_map]
    cases hu : urls.get? i with
    | none => rfl
    | some u => simp [Function.comp, scrapeOne_url]

theorem scrapeOne_fail (env : ScrapeEnv) (re : Bool) (u : String)
    (h : failsFor env re u) :
    ((scrapeOne env re u).1).ok = false ∧
    ((scrapeOne env re u).1).error ≠ none := by
  unfold scrapeOne
  by_cases hr : (re && !env.robotsAllowed u) = true
  · simp [hr]
  · rw [if_neg hr]
    rcases h with ⟨hre, hal⟩ | ⟨e, he⟩ | ⟨b, e, hb, he⟩
    · exact absurd (by simp [hre, hal]) hr
    · simp [he]
    · simp [hb, he]

theorem scrapeOne_congr (env env' : ScrapeEnv) (re : Bool) (u : String)
    (h : agreesAt env env' u) :
    scrapeOne env re u = scrapeOne env' re u := by
  obtain ⟨h1, h2, h3⟩ := h
  unfold scrapeOne
  rw [h1, h2]
  cases hf : env'.fetchResult u with
  | error e => simp [hf]
  | ok b =>
    have hp : env.parseResult b = env'.parseResult b := h3 b (h2.trans hf)
    simp [hf, hp]

/-- C3: the batch never aborts: `scrape_many` always yields one result per
input URL; a URL whose processing fails (robots disallow, fetch exception
— network error, timeout or HTTP error status — or extraction exception)
yields a result with `ok = false` carrying a cause string; and each URL's
result depends only on that URL's own outcomes, so one URL's failure
cannot affect another URL's entry. -/
theorem c3_failure_isolation (env env' : ScrapeEnv) (re : Bool)
    (urls : List String) :
    (scrape_many env re urls).length = urls.length ∧
    (∀ i u, urls.get? i = some u → failsFor env re u →
      ∃ res, (scrape_many env re urls).get? i = some res ∧
        res.ok = false ∧ res.error ≠ none) ∧
    (∀ i u, urls.get? i = some u → agreesAt env env' u →
      (scrape_many env re urls).get? i = (scrape_many env' re urls).get? i) := by
  refine ⟨by simp [scrape_many], ?_, ?_⟩
  · intro i u hu hf
    refine ⟨(scrapeOne env re u).1, ?_, scrapeOne_fail env re u hf⟩
    rw [scrape_many, List.get?_map, hu]
    rfl
  · intro i u hu ha
    rw [scrape_many, scrape_many, List.get?_map, List.get?_map, hu]
    simp [scrapeOne_congr env env' re u ha]

theorem c3_failure_isolation_witness :
    ∃ res,
      (scrape_many
        (⟨fun _ => true,
          fun u => if u = "bad" then Except.error "boom" else Except.ok "body",
          fun _ => Except.ok []⟩ : ScrapeEnv) false ["good", "bad"]).get? 1
        = some res ∧ res.ok = false ∧ res.error ≠ none :=
  (c3_failure_isolation
    (⟨fun _ => true,
      fun u => if u = "bad" then Except.error "boom" else Except.ok "body",
      fun _ => Except.ok []⟩ : ScrapeEnv)
    (⟨fun _ => true,
      fun u => if u = "bad" then Except.error "boom" else Except.ok "body",
      fun _ => Except.ok []⟩ : ScrapeEnv)
    false ["good", "bad"]).2.1 1 "bad" rfl
    (Or.inr (Or.inl ⟨"boom", by simp⟩))

/-- C8: when robots compliance is on and the robots decision for a URL is
"disallowed", `_scrape_one` short-circuits to the not-ok result carrying
the disallow reason and never invokes `fetch` — hence no semaphore slot
is taken and no network request is issued for that URL. -/
theorem c8_robots_short_circuit (env : ScrapeEnv) (url : String)
    (h : env.robotsAllowed url = false) :
    scrapeOne env true url =
      ({ url := url, ok := false, data := none,
         error := some "Disallowed by robots.txt" }, false) := by
  simp [scrapeOne, h]

theorem c8_robots_short_circuit_witness :
    scrapeOne
      (⟨fun _ => false, fun _ => Except.ok "body", fun _ => Except.ok []⟩ :
        ScrapeEnv) true "https://x.com/a" =
      ({ url := "https://x.com/a", ok := false, data := none,
         error := some "Disallowed by robots.txt" }, false) :=
  c8_robots_short_circuit
    (⟨fun _ => false, fun _ => Except.ok "body", fun _ => Except.ok []⟩ :
      ScrapeEnv) "https://x.com/a" rfl

theorem wait_nolimit (rl : RateLimiter) (url : String) (now j : ℚ)
    (h : rl.delay ≤ 0) : rl.wait url now j = (now, rl, []) := by
  unfold RateLimiter.wait
  rw [if_pos h]

theorem wait_global_sleep (d ng : ℚ) (pn : String → ℚ) (url : String)
    (now j : ℚ) (hnle : ¬ d ≤ 0) (hlt : now < ng) :
    RateLimiter.wait ⟨d, false, ng, pn⟩ url now j =
      (ng + j, ⟨d, false, ng + j + d, pn⟩,
       [RLEvent.acquire, RLEvent.readClock now, RLEvent.sleep (ng - now),
        RLEvent.readClock (ng + j), RLEvent.setNext "__global__" (ng + j + d),
        RLEvent.release]) := by
  unfold RateLimiter.wait
  simp [if_neg hnle, if_pos hlt, scopeKey]

theorem wait_global_go (d ng : ℚ) (pn : String → ℚ) (url : String)
    (now j : ℚ) (hnle : ¬ d ≤ 0) (hge : ¬ now < ng) :
    RateLimiter.wait ⟨d, false, ng, pn⟩ url now j =
      (now, ⟨d, false, now + d, pn⟩,
       [RLEvent.acquire, RLEvent.readClock now,
        RLEvent.setNext "__global__" (now + d), RLEvent.release]) := by
  unfold RateLimiter.wait
  simp [if_neg hnle, if_neg hge, scopeKey]

theorem wait_perhost_sleep (d ng : ℚ) (pn : String → ℚ) (url : String)
    (now j : ℚ) (hnle : ¬ d ≤ 0) (hlt : now < pn (netloc url)) :
    RateLimiter.wait ⟨d, true, ng, pn⟩ url now j =
      (pn (netloc url) + j,
       ⟨d, true, ng,
        fun h => if h = netloc url then pn (netloc url) + j + d else pn h⟩,
       [RLEvent.acquire, RLEvent.readClock now,
        RLEvent.sleep (pn (netloc url) - now),
        RLEvent.readClock (pn (netloc url) + j),
        RLEvent.setNext (netloc url) (pn (netloc url) + j + d),
        RLEvent.release]) := by
  unfold RateLimiter.wait
  simp [if_neg hnle, if_pos hlt, scopeKey]

theorem wait_perhost_go (d ng : ℚ) (pn : String → ℚ) (url : String)
    (now j : ℚ) (hnle : ¬ d ≤ 0) (hge : ¬ now < pn (netloc url)) :
    RateLimiter.wait ⟨d, true, ng, pn⟩ url now j =
      (now,
       ⟨d, true, ng, fun h => if h = netloc url then now + d else pn h⟩,
       [RLEvent.acquire, RLEvent.readClock now,
        RLEvent.setNext (netloc url) (now + d), RLEvent.release]) := by
  unfold RateLimiter.wait
  simp [if_neg hnle, if_neg hge, scopeKey]

theorem wait_delay (rl : RateLimiter) (url : String) (now j : ℚ) :
    ((rl.wait url now j).2.1).delay = rl.delay := by
  obtain ⟨d, ph, ng, pn⟩ := rl
  by_cases h0 : d ≤ 0
  · rw [wait_nolimit ⟨d, ph, ng, pn⟩ url now j h0]
  · cases ph
    · by_cases hlt : now < ng
      · rw [wait_global_sleep d ng pn url now j h0 hlt]
      · rw [wait_global_go d ng pn url now j h0 hlt]
    · by_cases hlt : now < pn (netloc url)
      · rw [wait_perhost_sleep d ng pn url now j h0 hlt]
      · rw [wait_perhost_go d ng pn url now j h0 hlt]

theorem wait_issue_ge (rl : RateLimiter) (url : String) (now j : ℚ)
    (hd : 0 < rl.delay) (hj : 0 ≤ j) :
    rl.next (scopeKey rl url) ≤ (rl.wait url now j).1 := by
  obtain ⟨d, ph, ng, pn⟩ := rl
  have hd' : (0 : ℚ) < d := hd
  have hnle : ¬ d ≤ 0 := not_le.mpr hd'
  cases ph
  · show ng ≤ (RateLimiter.wait ⟨d, false, ng, pn⟩ url now j).1
    by_cases hlt : now < ng
    · rw [wait_global_sleep d ng pn url now j hnle hlt]
      show ng ≤ ng + j
      linarith
    · rw [wait_global_go d ng pn url now j hnle hlt]
      exact le_of_not_lt hlt
  · show pn (netloc url) ≤ (RateLimiter.wait ⟨d, true, ng, pn⟩ url now j).1
    by_cases hlt : now < pn (netloc url)
    · rw [wait_perhost_sleep d ng pn url now j hnle hlt]
      show pn (netloc url) ≤ pn (netloc url) + j
      linarith
    · rw [wait_perhost_go d ng pn url now j hnle hlt]
      exact le_of_not_lt hlt

theorem wait_next_self (rl : RateLimiter) (url : String) (now j : ℚ)
    (hd : 0 < rl.delay) :
    ((rl.wait url now j).2.1).next (scopeKey rl url) =
      (rl.wait url now j).1 + rl.delay := by
  obtain ⟨d, ph, ng, pn⟩ := rl
  have hd' : (0 : ℚ) < d := hd
  have hnle : ¬ d ≤ 0 := not_le.mpr hd'
  cases ph
  · by_cases hlt : now < ng
    · rw [wait_global_sleep d ng pn url now j hnle hlt]
      exact rfl
    · rw [wait_global_go d ng pn url now j hnle hlt]
      exact rfl
  · by_cases hlt : now < pn (netloc url)
    · rw [wait_perhost_sleep d ng pn url now j hnle hlt]
      show (if netloc url = netloc url then pn (netloc url) + j + d else pn (netloc url))
        = pn (netloc url) + j + d
      rw [if_pos rfl]
    · rw [wait_perhost_go d ng pn url now j hnle hlt]
      show (if netloc url = netloc url then now + d else pn (netloc url)) = now + d
      rw [if_pos rfl]

theorem wait_next_mono (rl : RateLimiter) (url : String) (now j : ℚ)
    (hj : 0 ≤ j) (s : String) :
    rl.next s ≤ ((rl.wait url now j).2.1).next s := by
  obtain ⟨d, ph, ng, pn⟩ := rl
  by_cases h0 : d ≤ 0
  · rw [wait_nolimit ⟨d, ph, ng, pn⟩ url now j h0]
  · have hd' : (0 : ℚ) < d := not_le.mp h0
    cases ph
    · by_cases hlt : now < ng
      · rw [wait_global_sleep d ng pn url now j h0 hlt]
        show ng ≤ ng + j + d
        linarith
      · rw [wait_global_go d ng pn url now j h0 hlt]
        show ng ≤ now + d
        have := le_of_not_lt hlt
        linarith
    · by_cases hlt : now < pn (netloc url)
      · rw [wait_perhost_sleep d ng pn url now j h0 hlt]
        show pn s ≤ if s = netloc url then pn (netloc url) + j + d else pn s
        by_cases hs : s = netloc url
        · subst hs
          rw [if_pos rfl]
          linarith
        · rw [if_neg hs]
      · rw [wait_perhost_go d ng pn url now j h0 hlt]
        show pn s ≤ if s = netloc url then now + d else pn s
        by_cases hs : s = netloc url
        · subst hs
          rw [if_pos rfl]
          have := le_of_not_lt hlt
          linarith
        · rw [if_neg hs]

theorem get_cons_zero_eq {α : Type} (a : α) (l : List α)
    (h : 0 < (a :: l).length) : (a :: l).get ⟨0, h⟩ = a := rfl

theorem get_cons_succ_eq {α : Type} (a : α) (l : List α) (n : ℕ)
    (h : n + 1 < (a :: l).length) :
    (a :: l).get ⟨n + 1, h⟩ = l.get ⟨n, Nat.lt_of_succ_lt_succ h⟩ := rfl

theorem runWait_issue_ge (rl : RateLimiter) (calls : List (String × ℚ × ℚ))
    (hd : 0 < rl.delay) (hj : ∀ c ∈ calls, 0 ≤ c.2.2) :
    ∀ p ∈ (runWait rl calls).1, rl.next p.1 ≤ p.2 := by
  induction calls generalizing rl with
  | nil =>
    intro p hp
    simp [runWait] at hp
  | cons c rest ih =>
    intro p hp
    simp only [runWait, List.mem_cons] at hp
    rcases hp with h | h
    · rw [h]
      exact wait_issue_ge rl c.1 c.2.1 c.2.2 hd (hj c (List.mem_cons_self c rest))
    · have hd' : 0 < ((rl.wait c.1 c.2.1 c.2.2).2.1).delay := by
        rw [wait_delay]
        exact hd
      have hrec := ih ((rl.wait c.1 c.2.1 c.2.2).2.1) hd'
        (fun x hx => hj x (List.mem_cons_of_mem c hx)) p h
      exact le_trans
        (wait_next_mono rl c.1 c.2.1 c.2.2 (hj c (List.mem_cons_self c rest)) p.1)
        hrec

/-- C1: spacing invariant of the rate limiter.  Over any serialized
sequence of `wait` calls (the lock fully serializes them, sleep included)
with configured delay `d > 0` and non-negative sleep jitters, any two
calls resolved to the same scope (same host under `per_host`, the single
global scope otherwise) have issue times at least `d` apart — in
particular no two wire requests to one scope are started less than `d`
apart, however many concurrent callers there are. -/
theorem c1_rate_spacing (rl : RateLimiter) (calls : List (String × ℚ × ℚ))
    (hd : 0 < rl.delay) (hj : ∀ c ∈ calls, 0 ≤ c.2.2) :
    ∀ i k, (hik : i < k) → (hk : k < ((runWait rl calls).1).length) →
      (((runWait rl calls).1).get ⟨i, Nat.lt_trans hik hk⟩).1 =
        (((runWait rl calls).1).get ⟨k, hk⟩).1 →
      (((runWait rl calls).1).get ⟨i, Nat.lt_trans hik hk⟩).2 + rl.delay ≤
        (((runWait rl calls).1).get ⟨k, hk⟩).2 := by
  induction calls generalizing rl with
  | nil =>
    intro i k hik hk
    simp [runWait] at hk
  | cons c rest ih =>
    intro i k hik hk hscope
    have hd' : 0 < ((rl.wait c.1 c.2.1 c.2.2).2.1).delay := by
      rw [wait_delay]
      exact hd
    have hj' : ∀ x ∈ rest, 0 ≤ x.2.2 :=
      fun x hx => hj x (List.mem_cons_of_mem c hx)
    simp only [runWait] at hscope hk ⊢
    cases k with
    | zero => omega
    | succ k =>
      cases i with
      | zero =>
        rw [get_cons_zero_eq, get_cons_succ_eq] at hscope
        rw [get_cons_zero_eq, get_cons_succ_eq]
        have hq := runWait_issue_ge ((rl.wait c.1 c.2.1 c.2.2).2.1) rest hd' hj'
          ((runWait ((rl.wait c.1 c.2.1 c.2.2).2.1) rest).1.get
            ⟨k, Nat.lt_of_succ_lt_succ hk⟩)
          (List.get_mem _ _ _)
        rw [← hscope] at hq
        rw [wait_next_self rl c.1 c.2.1 c.2.2 hd] at hq
        exact hq
      | succ i =>
        rw [get_cons_succ_eq, get_cons_succ_eq] at hscope
        rw [get_cons_succ_eq, get_cons_succ_eq]
        have hrec := ih ((rl.wait c.1 c.2.1 c.2.2).2.1) hd' hj' i k
          (Nat.lt_of_succ_lt_succ hik) (Nat.lt_of_succ_lt_succ hk) hscope
        rw [wait_delay] at hrec
        exact hrec

theorem c1_rate_spacing_witness :
    ((runWait (RateLimiter.init 1 false)
        [("http://a/x", 0, 0), ("http://a/x", 0, 0)]).1.get
      ⟨0, by simp only [runWait, List.length_cons]; omega⟩).2
      + (RateLimiter.init 1 false).delay ≤
    ((runWait (RateLimiter.init 1 false)
        [("http://a/x", 0, 0), ("http://a/x", 0, 0)]).1.get
      ⟨1, by simp only [runWait, List.length_cons]; omega⟩).2 := by
  have e1 : RateLimiter.init 1 false =
      (⟨1, false, 0, fun _ => 0⟩ : RateLimiter) := by
    norm_num [RateLimiter.init]
  have e2 : RateLimiter.wait (⟨1, false, 0, fun _ => 0⟩ : RateLimiter)
      "http://a/x" 0 0
      = (0, ⟨1, false, 0 + 1, fun _ => 0⟩,
         [RLEvent.acquire, RLEvent.readClock 0,
          RLEvent.setNext "__global__" (0 + 1), RLEvent.release]) :=
    wait_global_go 1 0 (fun _ => 0) "http://a/x" 0 0 (by norm_num) (by norm_num)
  exact c1_rate_spacing (RateLimiter.init 1 false)
    [("http://a/x", 0, 0), ("http://a/x", 0, 0)]
    (by norm_num [RateLimiter.init])
    (by
      intro x hx
      simp at hx
      rcases hx with rfl | rfl <;> norm_num)
    0 1 (by omega) (by simp only [runWait, List.length_cons]; omega)
    (by
      rw [e1]
      simp only [runWait]
      rw [get_cons_zero_eq, get_cons_succ_eq, get_cons_zero_eq, e2]
      simp [scopeKey])

/-- C9 (amended): in `RateLimiter.wait` with `delay > 0`, when the current
time is earlier than the scope's next-allowed time, the caller computes
`sleepFor = next[scope] - now` and suspends for it while still holding the
exclusive section — there is no release before the sleep and no
re-acquisition after it; the clock re-read and the update
`next[scope] = now + delay` also happen inside the same single
acquire/release pair, so a sleeping caller does hold the lock, including
against callers for other scopes. -/
theorem c9_sleep_holds_lock (rl : RateLimiter) (url : String) (now j : ℚ)
    (hd : 0 < rl.delay) (hlt : now < rl.next (scopeKey rl url)) :
    (rl.wait url now j).2.2 =
      [RLEvent.acquire, RLEvent.readClock now,
       RLEvent.sleep (rl.next (scopeKey rl url) - now),
       RLEvent.readClock (rl.next (scopeKey rl url) + j),
       RLEvent.setNext (scopeKey rl url)
         (rl.next (scopeKey rl url) + j + rl.delay),
       RLEvent.release] ∧
    lockDepthsAtSleeps ((rl.wait url now j).2.2) 0 = [1] := by
  obtain ⟨d, ph, ng, pn⟩ := rl
  have hd' : (0 : ℚ) < d := hd
  have hnle : ¬ d ≤ 0 := not_le.mpr hd'
  cases ph
  · have hlt' : now < ng := hlt
    rw [wait_global_sleep d ng pn url now j hnle hlt']
    exact ⟨rfl, rfl⟩
  · have hlt' : now < pn (netloc url) := hlt
    rw [wait_perhost_sleep d ng pn url now j hnle hlt']
    exact ⟨rfl, rfl⟩

theorem c9_sleep_holds_lock_witness :
    (RateLimiter.wait ⟨1, false, 5, fun _ => 0⟩ "http://b/x" 2 0).2.2 =
      [RLEvent.acquire, RLEvent.readClock 2, RLEvent.sleep (5 - 2),
       RLEvent.readClock (5 + 0), RLEvent.setNext "__global__" (5 + 0 + 1),
       RLEvent.release] ∧
    lockDepthsAtSleeps
      ((RateLimiter.wait ⟨1, false, 5, fun _ => 0⟩ "http://b/x" 2 0).2.2) 0
      = [1] :=
  c9_sleep_holds_lock ⟨1, false, 5, fun _ => 0⟩ "http://b/x" 2 0
    (by decide) (by decide)

theorem c9_counterexample :
    lockDepthsAtSleeps
      ((RateLimiter.wait
          ((RateLimiter.wait (RateLimiter.init 1 false) "http://a/x" 0 0).2.1)
          "http://a/x" 0 0).2.2) 0 = [1] ∧
    ¬ (∀ d ∈ lockDepthsAtSleeps
        ((RateLimiter.wait
            ((RateLimiter.wait (RateLimiter.init 1 false) "http://a/x" 0 0).2.1)
            "http://a/x" 0 0).2.2) 0, d = 0) := by
  have e1 : RateLimiter.init 1 false =
      (⟨1, false, 0, fun _ => 0⟩ : RateLimiter) := by
    norm_num [RateLimiter.init]
  have e2 : RateLimiter.wait (⟨1, false, 0, fun _ => 0⟩ : RateLimiter)
      "http://a/x" 0 0
      = (0, ⟨1, false, 0 + 1, fun _ => 0⟩,
         [RLEvent.acquire, RLEvent.readClock 0,
          RLEvent.setNext "__global__" (0 + 1), RLEvent.release]) :=
    wait_global_go 1 0 (fun _ => 0) "http://a/x" 0 0 (by norm_num) (by norm_num)
  have e3 : RateLimiter.wait (⟨1, false, 0 + 1, fun _ => 0⟩ : RateLimiter)
      "http://a/x" 0 0
      = (0 + 1 + 0, ⟨1, false, 0 + 1 + 0 + 1, fun _ => 0⟩,
         [RLEvent.acquire, RLEvent.readClock 0, RLEvent.sleep (0 + 1 - 0),
          RLEvent.readClock (0 + 1 + 0),
          RLEvent.setNext "__global__" (0 + 1 + 0 + 1), RLEvent.release]) :=
    wait_global_sleep 1 (0 + 1) (fun _ => 0) "http://a/x" 0 0 (by norm_num)
      (by norm_num)
  have hfirst : lockDepthsAtSleeps
      ((RateLimiter.wait
          ((RateLimiter.wait (RateLimiter.init 1 false) "http://a/x" 0 0).2.1)
          "http://a/x" 0 0).2.2) 0 = [1] := by
    rw [e1, e2]
    show lockDepthsAtSleeps
      ((RateLimiter.wait (⟨1, false, 0 + 1, fun _ => 0⟩ : RateLimiter)
        "http://a/x" 0 0).2.2) 0 = [1]
    rw [e3]
    exact rfl
  refine ⟨hfirst, fun hall => ?_⟩
  have h2 := hall 1 (by rw [hfirst]; exact List.mem_singleton_self 1)
  exact absurd h2 one_ne_zero

theorem parseNew_nil_canFetch (ua u : String) :
    (RobotFileParser.parseNew []).canFetch ua u = true := rfl

theorem robotsText_of_failed (oracle : String → Except String (ℕ × String))
    (host : String) (hfail : robotsFetchFailed oracle host = true) :
    robotsText (oracle host) = "" := by
  unfold robotsFetchFailed at hfail
  unfold robotsText
  cases h : oracle host with
  | error e => rfl
  | ok sb =>
    rw [h] at hfail
    simp at hfail
    show (if sb.1 = 200 then sb.2 else "") = ""
    rw [if_neg hfail]

/-- C5: when the robots.txt fetch for a URL's host raises or returns a
non-200 status, `RobotsCache.can_fetch` swallows the failure (the model is
total: it always returns a Boolean), parses empty rules, answers `true`
for the URL, and caches an allow-all rule set for the host, so every later
query against that host is also permitted. -/
theorem c5_robots_failure_allows
    (oracle : String → Except String (ℕ × String)) (rc : RobotsCache)
    (url : String) (hmiss : rc.cache (netloc url) = none)
    (hfail : robotsFetchFailed oracle (netloc url) = true) :
    (rc.canFetchStep oracle url).1 = true ∧
    ∀ rp, ((rc.canFetchStep oracle url).2.1).cache (netloc url) = some rp →
      ∀ ua u, rp.canFetch ua u = true := by
  have htext : robotsText (oracle (netloc url)) = "" :=
    robotsText_of_failed oracle (netloc url) hfail
  have hrp : fetchedRules oracle (netloc url) = RobotFileParser.parseNew [] := by
    rw [fetchedRules, htext]
    rfl
  constructor
  · simp only [RobotsCache.canFetchStep, hmiss]
    rw [hrp]
    exact parseNew_nil_canFetch rc.userAgent url
  · intro rp h
    simp only [RobotsCache.canFetchStep, hmiss, if_true] at h
    have : fetchedRules oracle (netloc url) = rp := Option.some.inj h
    intro ua u
    rw [← this, hrp]
    exact parseNew_nil_canFetch ua u

theorem c5_robots_failure_allows_witness :
    (RobotsCache.canFetchStep (fun _ => Except.error "net down")
      ⟨"agent", fun _ => none⟩ "https://x.com/p").1 = true :=
  (c5_robots_failure_allows (fun _ => Except.error "net down")
    ⟨"agent", fun _ => none⟩ "https://x.com/p" rfl rfl).1

theorem robotsStep_userAgent (oracle : String → Except String (ℕ × String))
    (rc : RobotsCache) (url : String) :
    ((rc.canFetchStep oracle url).2.1).userAgent = rc.userAgent := by
  unfold RobotsCache.canFetchStep
  cases h : rc.cache (netloc url) <;> simp [h]

theorem robotsStep_preserves (oracle : String → Except String (ℕ × String))
    (rc : RobotsCache) (url : String) (h : String) (rp : RobotFileParser)
    (hc : rc.cache h = some rp) :
    ((rc.canFetchStep oracle url).2.1).cache h = some rp := by
  unfold RobotsCache.canFetchStep
  cases hm : rc.cache (netloc url) with
  | some rp2 =>
    simp only [hm]
    exact hc
  | none =>
    simp only [hm]
    by_cases he : h = netloc url
    · rw [he] at hc
      rw [hc] at hm
      exact absurd hm (Option.some_ne_none rp)
    · show (if h = netloc url then some (fetchedRules oracle (netloc url))
        else rc.cache h) = some rp
      rw [if_neg he]
      exact hc

theorem robotsStep_cached (oracle : String → Except String (ℕ × String))
    (rc : RobotsCache) (url : String) (rp : RobotFileParser)
    (hm : rc.cache (netloc url) = some rp) :
    rc.canFetchStep oracle url = (rp.canFetch rc.userAgent url, rc, false) := by
  unfold RobotsCache.canFetchStep
  simp only [hm]

theorem robotsStep_uncached (oracle : String → Except String (ℕ × String))
    (rc : RobotsCache) (url : String) (hm : rc.cache (netloc url) = none) :
    rc.canFetchStep oracle url =
      ((fetchedRules oracle (netloc url)).canFetch rc.userAgent url,
       ⟨rc.userAgent,
        fun h => if h = netloc url then some (fetchedRules oracle (netloc url))
          else rc.cache h⟩,
       true) := by
  unfold RobotsCache.canFetchStep
  simp only [hm]

theorem fetchesFor_cons (h : String) (o : String × Bool × Bool)
    (outs : List (String × Bool × Bool)) :
    fetchesFor h (o :: outs) =
      (if netloc o.1 == h && o.2.2 then 1 else 0) + fetchesFor h outs := by
  unfold fetchesFor
  rw [List.filter_cons]
  split_ifs with hc
  · simp [Nat.add_comm]
  · simp

theorem runRobots_preserves (oracle : String → Except String (ℕ × String)) :
    ∀ (urls : List String) (rc : RobotsCache) (h : String)
      (rp : RobotFileParser), rc.cache h = some rp →
      ((runRobots oracle rc urls).2).cache h = some rp := by
  intro urls
  induction urls with
  | nil =>
    intro rc h rp hc
    exact hc
  | cons u rest ih =>
    intro rc h rp hc
    simp only [runRobots]
    exact ih _ h rp (robotsStep_preserves oracle rc u h rp hc)

theorem runRobots_cached (oracle : String → Except String (ℕ × String)) :
    ∀ (urls : List String) (rc : RobotsCache) (h : String)
      (rp : RobotFileParser), rc.cache h = some rp →
      fetchesFor h (runRobots oracle rc urls).1 = 0 ∧
      (∀ q ∈ (runRobots oracle rc urls).1, netloc q.1 = h →
        q.2.1 = rp.canFetch rc.userAgent q.1) ∧
      ((runRobots oracle rc urls).2).cache h = some rp := by
  intro urls
  induction urls with
  | nil =>
    intro rc h rp hc
    refine ⟨rfl, ?_, hc⟩
    intro q hq
    simp [runRobots] at hq
  | cons u rest ih =>
    intro rc h rp hc
    simp only [runRobots]
    cases hm : rc.cache (netloc u) with
    | some rp2 =>
      rw [robotsStep_cached oracle rc u rp2 hm]
      dsimp only
      obtain ⟨h1, h2, h3⟩ := ih rc h rp hc
      refine ⟨?_, ?_, h3⟩
      · rw [fetchesFor_cons]
        simp [h1]
      · intro q hq hqh
        rcases List.mem_cons.mp hq with rfl | hq2
        · dsimp only at hqh ⊢
          rw [hqh] at hm
          have : rp2 = rp := Option.some.inj (hm.symm.trans hc)
          rw [this]
        · exact h2 q hq2 hqh
    | none =>
      have hne : netloc u ≠ h := by
        intro he
        rw [he, hc] at hm
        exact absurd hm (Option.some_ne_none rp)
      rw [robotsStep_uncached oracle rc u hm]
      dsimp only
      have hc' : (⟨rc.userAgent,
          fun h2 => if h2 = netloc u
            then some (fetchedRules oracle (netloc u)) else rc.cache h2⟩ :
          RobotsCache).cache h = some rp := by
        show (if h = netloc u then some (fetchedRules oracle (netloc u))
          else rc.cache h) = some rp
        rw [if_neg (fun he => hne he.symm)]
        exact hc
      obtain ⟨h1, h2, h3⟩ := ih _ h rp hc'
      refine ⟨?_, ?_, h3⟩
      · rw [fetchesFor_cons]
        dsimp only
        simp [beq_eq_false_iff_ne.mpr hne, h1]
      · intro q hq hqh
        rcases List.mem_cons.mp hq with rfl | hq2
        · dsimp only at hqh
          exact absurd hqh hne
        · exact h2 q hq2 hqh

theorem runRobots_single (oracle : String → Except String (ℕ × String)) :
    ∀ (urls : List String) (rc : RobotsCache) (h : String),
      fetchesFor h (runRobots oracle rc urls).1 ≤ 1 ∧
      (∀ rp, ((runRobots oracle rc urls).2).cache h = some rp →
        ∀ q ∈ (runRobots oracle rc urls).1, netloc q.1 = h →
          q.2.1 = rp.canFetch rc.userAgent q.1) := by
  intro urls
  induction urls with
  | nil =>
    intro rc h
    refine ⟨by simp [fetchesFor, runRobots], ?_⟩
    intro rp _ q hq
    simp [runRobots] at hq
  | cons u rest ih =>
    intro rc h
    simp only [runRobots]
    cases hm : rc.cache (netloc u) with
    | some rp2 =>
      rw [robotsStep_cached oracle rc u rp2 hm]
      dsimp only
      obtain ⟨ih1, ih2⟩ := ih rc h
      constructor
      · rw [fetchesFor_cons]
        simpa using ih1
      · intro rp hrp q hq hqh
        rcases List.mem_cons.mp hq with rfl | hq2
        · dsimp only at hqh ⊢
          rw [hqh] at hm
          have hfin := runRobots_preserves oracle rest rc h rp2 hm
          have : rp2 = rp := Option.some.inj (hfin.symm.trans hrp)
          rw [this]
        · exact ih2 rp hrp q hq2 hqh
    | none =>
      rw [robotsStep_uncached oracle rc u hm]
      dsimp only
      by_cases hh : netloc u = h
      · have hc' : (⟨rc.userAgent,
            fun h2 => if h2 = netloc u
              then some (fetchedRules oracle (netloc u)) else rc.cache h2⟩ :
            RobotsCache).cache h = some (fetchedRules oracle (netloc u)) := by
          show (if h = netloc u then some (fetchedRules oracle (netloc u))
            else rc.cache h) = some (fetchedRules oracle (netloc u))
          rw [if_pos hh.symm]
        obtain ⟨a1, a2, a3⟩ :=
          runRobots_cached oracle rest _ h (fetchedRules oracle (netloc u)) hc'
        constructor
        · rw [fetchesFor_cons]
          dsimp only
          have hb : (netloc u == h && true) = true := by
            simp [hh]
          rw [if_pos hb, a1]
        · intro rp hrp q hq hqh
          have heq : fetchedRules oracle (netloc u) = rp :=
            Option.some.inj (a3.symm.trans hrp)
          rcases List.mem_cons.mp hq with rfl | hq2
          · dsimp only
            rw [heq]
          · have := a2 q hq2 hqh
            rw [heq] at this
            exact this
      · obtain ⟨b1, b2⟩ := ih (⟨rc.userAgent,
          fun h2 => if h2 = netloc u
            then some (fetchedRules oracle (netloc u)) else rc.cache h2⟩ :
          RobotsCache) h
        constructor
        · rw [fetchesFor_cons]
          dsimp only
          simp only [beq_eq_false_iff_ne.mpr hh, Bool.false_and, if_false]
          simpa using b1
        · intro rp hrp q hq hqh
          rcases List.mem_cons.mp hq with rfl | hq2
          · dsimp only at hqh
            exact absurd hqh hh
          · exact b2 rp hrp q hq2 hqh

/-- C6: per host and per `RobotsCache` instance, at most one robots.txt
fetch-and-parse occurs over any serialized sequence of `can_fetch` calls
starting from the empty cache (the lock serializes concurrent calls), and
every call for that host evaluates its decision against the single cached
rule set for the host. -/
theorem c6_robots_single_fetch (oracle : String → Except String (ℕ × String))
    (ua : String) (urls : List String) (h : String) :
    fetchesFor h (runRobots oracle ⟨ua, fun _ => none⟩ urls).1 ≤ 1 ∧
    (∀ rp, ((runRobots oracle ⟨ua, fun _ => none⟩ urls).2).cache h = some rp →
      ∀ q ∈ (runRobots oracle ⟨ua, fun _ => none⟩ urls).1, netloc q.1 = h →
        q.2.1 = rp.canFetch ua q.1) :=
  runRobots_single oracle urls ⟨ua, fun _ => none⟩ h

theorem c6_robots_single_fetch_witness :
    fetchesFor "ex.com"
      (runRobots (fun _ => Except.error "down") ⟨"*", fun _ => none⟩
        ["https://ex.com/a", "https://ex.com/b"]).1 ≤ 1 ∧
    ("https://ex.com/b", true, false).2.1 =
      (RobotFileParser.parseNew []).canFetch "*" ("https://ex.com/b", true, false).1 :=
  ⟨(c6_robots_single_fetch (fun _ => Except.error "down") "*"
      ["https://ex.com/a", "https://ex.com/b"] "ex.com").1,
   (c6_robots_single_fetch (fun _ => Except.error "down") "*"
      ["https://ex.com/a", "https://ex.com/b"] "ex.com").2
     (RobotFileParser.parseNew []) (by decide)
     ("https://ex.com/b", true, false) (by decide) (by decide)⟩

theorem countP_set (p : TaskPhase → Bool) :
    ∀ (l : List TaskPhase) (i : ℕ) (hi : i < l.length) (x : TaskPhase),
      (l.set i x).countP p + (if p (l.get ⟨i, hi⟩) then 1 else 0) =
        l.countP p + (if p x then 1 else 0) := by
  intro l
  induction l with
  | nil =>
    intro i hi
    simp at hi
  | cons a t ih =>
    intro i hi x
    cases i with
    | zero =>
      simp only [List.set_cons_zero, List.countP_cons, List.get_cons_zero]
      cases hpa : p a <;> cases hpx : p x <;> simp [hpa, hpx] <;> omega
    | succ n =>
      simp only [List.set_cons_succ, List.countP_cons, List.get_cons_succ]
      have h2 := ih n (Nat.lt_of_succ_lt_succ hi) x
      simp only [List.get_eq_getElem] at h2
      cases hpa : p a <;> simp [hpa] <;> omega

theorem countActive_replicate (n : ℕ) :
    countActive (List.replicate n TaskPhase.idle) = 0 := by
  induction n with
  | zero => rfl
  | succ n ih =>
    simp only [List.replicate_succ, countActive, List.countP_cons] at ih ⊢
    simpa using ih

theorem gateStep_inv {k : ℕ} {s t : GateState} (hst : GateStep s t)
    (hinv : s.sem + countActive s.tasks = k) :
    t.sem + countActive t.tasks = k := by
  cases hst with
  | acquire i r hi hidle hsem =>
    have hc := countP_set
      (fun t => match t with | TaskPhase.active _ => true | _ => false)
      s.tasks i hi (TaskPhase.active r)
    rw [hidle] at hc
    simp at hc
    unfold countActive at hinv ⊢
    dsimp only
    omega
  | attempt i r hi h =>
    have hc := countP_set
      (fun t => match t with | TaskPhase.active _ => true | _ => false)
      s.tasks i hi (TaskPhase.active r)
    rw [h] at hc
    simp at hc
    unfold countActive at hinv ⊢
    dsimp only
    omega
  | release i hi h =>
    have hc := countP_set
      (fun t => match t with | TaskPhase.active _ => true | _ => false)
      s.tasks i hi TaskPhase.done
    rw [h] at hc
    simp at hc
    unfold countActive at hinv ⊢
    dsimp only
    omega

theorem gateReachable_inv {k n : ℕ} {s : GateState}
    (h : GateReachable k n s) : s.sem + countActive s.tasks = k := by
  induction h with
  | init => simp [countActive_replicate]
  | step hr hst ih => exact gateStep_inv hst ih

/-- C7: the concurrency gate bound.  In the transition system modelling
`asyncio.Semaphore(concurrency)` as used by `fetch` — one slot acquired
before the retry loop, all retry attempts and backoff sleeps run inside
that same slot without touching the semaphore, one release on exit — any
state reachable from `scrape_many`'s start (fresh `Semaphore(k)`, `n` idle
tasks) has at most `k` tasks inside the gate. -/
theorem c7_gate_bound (k n : ℕ) (s : GateState)
    (h : GateReachable k n s) : countActive s.tasks ≤ k := by
  have := gateReachable_inv h
  omega

theorem c7_gate_bound_witness :
    countActive ((List.replicate 2 TaskPhase.idle).set 0 (TaskPhase.active 3))
      ≤ 1 :=
  c7_gate_bound 1 2 _
    (GateReachable.step GateReachable.init
      (GateStep.acquire ⟨1, List.replicate 2 TaskPhase.idle⟩ 0 3
        (by decide) (by decide) (by decide)))
